import Mathlib

/-!
Verification of `django-exportable-admin`.

The repository has two source files:

* `django_exportable_admin/utils.py` — the `Echo` passthrough sink and the
  `UnicodeWriter` incremental delimited-text encoder built on `io.StringIO`,
  `csv.DictWriter` and an incremental codec;
* `django_exportable_admin/admin.py` — `ExportableAdmin.export_changelist_view`,
  which builds the header mapping and the per-record row dictionaries and
  streams the encoder's chunks.

The embedding below models these at the level of text.  Chunks produced by the
incremental UTF-8 encoder are modelled as the text they encode: the incremental
encoder of a complete `str` is the plain UTF-8 encoding, it is injective, and
it maps concatenation to concatenation, so every statement about decoded chunks
is faithfully a statement about these strings.  Python's `io.StringIO` is
modelled by an explicit character buffer together with a write position; its
`truncate(0)` empties the buffer but leaves the position unchanged, and a
`write` beyond the end of the buffer zero-fills the gap with NUL characters,
exactly as in CPython.
-/

namespace DjangoExportableAdmin

/-- The NUL character with which `io.StringIO` zero-fills the gap when a write
happens at a position beyond the end of the buffer. -/
def nulChar : Char := Char.ofNat 0

/-- Carriage return, part of the `csv.excel` dialect line terminator. -/
def crChar : Char := Char.ofNat 13

/-- Line feed, part of the `csv.excel` dialect line terminator. -/
def lfChar : Char := Char.ofNat 10

/-- The double-quote quote character of the `csv.excel` dialect. -/
def quoteChar : Char := Char.ofNat 34

/-- A run of `n` NUL characters, as a string. -/
def nulRun (n : Nat) : String := String.mk (List.replicate n nulChar)

/-- CPython semantics of writing the characters `s` into a text buffer `buf` at
position `pos`: the buffer is zero-filled up to `pos` if the position lies
beyond its end, and `s` then overwrites the region starting at `pos`. -/
def overwriteAt (buf : List Char) (pos : Nat) (s : List Char) : List Char :=
  (buf ++ List.replicate (pos - buf.length) nulChar).take pos ++ s
    ++ (buf ++ List.replicate (pos - buf.length) nulChar).drop (pos + s.length)

/-- Model of `io.StringIO`: the character contents and the stream position. -/
structure StrQueue where
  buf : List Char
  pos : Nat

/-- Model of `StringIO.write`: overwrite at the current position (zero-filling
any gap) and advance the position by the length of the written text. -/
def StrQueue.write (io : StrQueue) (s : String) : StrQueue :=
  ⟨overwriteAt io.buf io.pos s.data, io.pos + s.length⟩

/-- Model of `StringIO.getvalue`: the entire buffer contents, independent of
the stream position. -/
def StrQueue.getvalue (io : StrQueue) : String := String.mk io.buf

/-- Model of `StringIO.truncate(0)`: the contents are cut to the empty string,
but the stream position is NOT changed. -/
def StrQueue.truncate0 (io : StrQueue) : StrQueue := ⟨[], io.pos⟩

/-- Quoting test of the `csv.excel` dialect under `QUOTE_MINIMAL`: a field is
quoted when it contains the delimiter, the quote character, or a character of
the `\r\n` line terminator. -/
def mustQuote (delim : Char) (field : String) : Bool :=
  field.data.any (fun c => c == delim || c == quoteChar || c == crChar || c == lfChar)

/-- Doubling of embedded quote characters (`doublequote=True` in the `excel`
dialect). -/
def escapeQuotes (field : String) : String :=
  String.mk (field.data.flatMap (fun c => if c == quoteChar then [quoteChar, quoteChar] else [c]))

/-- A single field as emitted by the `csv` module: quoted, with embedded quote
characters doubled, when `mustQuote` holds, and verbatim otherwise. -/
def quoteField (delim : Char) (field : String) : String :=
  if mustQuote delim field then
    String.mk (quoteChar :: ((escapeQuotes field).data ++ [quoteChar]))
  else field

/-- One record as written by `csv.writer` with the `excel` dialect and a custom
delimiter: the quoted fields joined by the delimiter, then `\r\n`. -/
def csvLine (delim : Char) (fields : List String) : String :=
  String.intercalate (String.mk [delim]) (fields.map (quoteField delim))
    ++ String.mk [crChar, lfChar]

/-- A Python value as it can occur in a row dictionary of this program: a text
string, `None`, or any other object carried together with the text that
Python's standard text conversion produces for it. -/
inductive Value where
  | vstr (s : String)
  | vnone
  | vother (text : String)
  deriving DecidableEq, Repr

/-- Model of `django.utils.encoding.smart_text`: text passes through
unchanged, `None` converts to the string `None`, and any other value converts
by Python's standard text-conversion rule (the text carried by `vother`). -/
def smart_text : Value → String
  | .vstr s => s
  | .vnone => "None"
  | .vother t => t

/-- A row dictionary, keyed by column label.  Python dictionaries have unique
keys; an association list with distinct keys models them, and lookups take the
first matching binding. -/
abbrev Row := List (String × Value)

/-- The dictionary comprehension at the top of `UnicodeWriter.writerow`:
every value of the row is converted with `smart_text`. -/
def textify (row : Row) : List (String × String) :=
  row.map (fun p => (p.1, smart_text p.2))

/-- Dictionary lookup on a (unique-keyed) association list. -/
def dictGet (row : List (String × String)) (key : String) : Option String :=
  (row.find? (fun p => p.1 == key)).map (fun p => p.2)

/-- Model of `csv.DictWriter._dict_to_list` with the default `restval=""`:
one field per configured fieldname, in order, the empty string substituted for
a missing key. -/
def dictToFields (fieldnames : List String) (row : List (String × String)) : List String :=
  fieldnames.map (fun k => (dictGet row k).getD (""))

/-- Model of `Echo.write` from `utils.py`: the sink returns the written value
to its caller instead of storing it. -/
def Echo.write (value : String) : String := value

/-- The full text line that `csv.DictWriter.writerow` appends to the queue for
a given row dictionary: `smart_text` conversion, `_dict_to_list`, then the
`excel`-dialect record with the configured delimiter. -/
def rowLine (delim : Char) (fieldnames : List String) (row : Row) : String :=
  csvLine delim (dictToFields fieldnames (textify row))

/-- Model of `UnicodeWriter` from `utils.py`.  `queue` is the `StringIO`
buffer; `delim` and `fieldnames` are the `csv.DictWriter` configuration;
`emitted` records, in order, every chunk forwarded to the destination stream
by `self.stream.write(...)` (with the `Echo` sink used by `admin.py`, the
stream stores nothing, so the trace of `write` calls is the observable
emission history). -/
structure UnicodeWriter where
  queue : StrQueue
  delim : Char
  fieldnames : List String
  emitted : List String

/-- Model of `UnicodeWriter.__init__`: a fresh empty queue into which
`csv.DictWriter.writeheader()` immediately writes the header line.  Nothing is
forwarded to the destination stream. -/
def UnicodeWriter.init (fieldnames : List String) (delim : Char) : UnicodeWriter :=
  { queue := StrQueue.write ⟨[], 0⟩ (csvLine delim fieldnames),
    delim := delim,
    fieldnames := fieldnames,
    emitted := [] }

/-- Model of `UnicodeWriter.writerow`: convert the row with `smart_text`,
write the csv record into the queue, read the queue's entire contents, encode
them (identity at text level), forward them with `stream.write` (the `Echo`
sink returns them), truncate the queue's contents to empty — the position is
untouched — and return the sink's result. -/
def UnicodeWriter.writerow (w : UnicodeWriter) (row : Row) : String × UnicodeWriter :=
  let q1 := w.queue.write (rowLine w.delim w.fieldnames row)
  let data := q1.getvalue
  let res := Echo.write data
  (res, { w with queue := q1.truncate0, emitted := w.emitted ++ [data] })

/-- Model of `UnicodeWriter.writerows`: the sequence of per-row results of
`writerow`, applied to the rows in order (the generator also threads the
writer's state, returned here alongside the chunk list). -/
def UnicodeWriter.writerows (w : UnicodeWriter) : List Row → List String × UnicodeWriter
  | [] => ([], w)
  | r :: rs =>
    let p := w.writerow r
    let q := p.2.writerows rs
    (p.1 :: q.1, q.2)

/-- Concatenation of emitted chunks, i.e. the decoded text document that a
client receiving every chunk in order obtains. -/
def concatChunks : List String → String
  | [] => ""
  | c :: cs => c ++ concatChunks cs

/-- The whole document produced by constructing a `UnicodeWriter` over the
`Echo` sink and calling `writerow` once per row, as the concatenation of all
chunks the writer hands to the sink. -/
def outputDocument (delim : Char) (fieldnames : List String) (rows : List Row) : String :=
  concatChunks ((UnicodeWriter.init fieldnames delim).writerows rows).1

/-- Document shape asserted by the specification (its words, for comparison
with `outputDocument`): the header line first, then one line per row in order,
each line delimited and quoted by the csv rules. -/
def specDocument (delim : Char) (fieldnames : List String) (rows : List Row) : String :=
  csvLine delim fieldnames ++ concatChunks (rows.map (rowLine delim fieldnames))

/-- Model of the result of `django.contrib.admin.utils.lookup_field` at one
field of one record: either a resolved value, or the raised
`ObjectDoesNotExist` condition. -/
inductive Lookup where
  | ok (v : Value)
  | doesNotExist
  deriving DecidableEq, Repr

/-- The `try/except ObjectDoesNotExist` around `lookup_field` in
`export_changelist_view.generate_response`: a raised does-not-exist condition
is caught and replaced by the value `None`. -/
def resolveValue (resolve : String → Lookup) (fn : String) : Value :=
  match resolve fn with
  | .ok v => v
  | .doesNotExist => Value.vnone

/-- The markup-stripping step of `generate_response`: `strip_tags` (an external
framework function, hence a parameter here) is applied exactly when the
resolved value is a string. -/
def processValue (stripTags : String → String) (v : Value) : Value :=
  match v with
  | .vstr s => Value.vstr (stripTags s)
  | v => v

/-- The `res_headers` loop of `export_changelist_view`: one `(field_name,
label)` pair per `list_display` entry in order, skipping `action_checkbox`.
`label` models `label_for_field`, an external framework function. -/
def resHeaders (label : String → String) : List String → List (String × String)
  | [] => []
  | fn :: rest =>
    if fn = "action_checkbox" then resHeaders label rest
    else (fn, label fn) :: resHeaders label rest

/-- The row-building loop of `generate_response` for one record: for each
`list_display` entry other than `action_checkbox`, resolve the field (a
does-not-exist condition becomes `None`), strip markup from string values, and
bind the result to the field's label. -/
def buildRow (stripTags : String → String) (label : String → String)
    (resolve : String → Lookup) : List String → Row
  | [] => []
  | fn :: rest =>
    if fn = "action_checkbox" then buildRow stripTags label resolve rest
    else (label fn, processValue stripTags (resolveValue resolve fn))
      :: buildRow stripTags label resolve rest

/-- Model of `generate_response` in `export_changelist_view`: construct a
`UnicodeWriter` over the `Echo` sink with the labels of `res_headers` as
fieldnames, then yield `writerow` of the built row for each record in order.
A record is modelled by its field-resolution function. -/
def generate_response (stripTags : String → String) (ld : List String)
    (label : String → String) (delim : Char)
    (records : List (String → Lookup)) : List String :=
  ((UnicodeWriter.init ((resHeaders label ld).map Prod.snd) delim).writerows
    (records.map (fun resolve => buildRow stripTags label resolve ld))).1

/-- The chunk list that `writerows` produces from a writer whose queue
contents are empty while its position is `p`: each chunk is a NUL run of the
current position followed by the row's line, and the position then grows by
that line's length. -/
def expectedChunks (d : Char) (fns : List String) : Nat → List Row → List String
  | _, [] => []
  | p, r :: rs =>
    String.mk (List.replicate p nulChar ++ (rowLine d fns r).data)
      :: expectedChunks d fns (p + (rowLine d fns r).length) rs

/-- Concrete rows used by witnesses: single column `A`. -/
def rA1 : Row := [("A", Value.vother "1")]

/-- Concrete rows used by witnesses: single column `A`, second row. -/
def rA2 : Row := [("A", Value.vother "2")]

/-- First row of the specification's end-to-end example. -/
def exRow1 : Row := [("Name", Value.vstr "A"), ("Amount", Value.vother "5")]

/-- Second row of the specification's end-to-end example. -/
def exRow2 : Row := [("Name", Value.vstr "B,C"), ("Amount", Value.vother "10")]

/-! Basic facts about the string wrapper and the buffer model. -/

lemma strMk_append (a b : List Char) : String.mk a ++ String.mk b = String.mk (a ++ b) := rfl

lemma strMk_data (s : String) : String.mk s.data = s := rfl

lemma length_strMk (l : List Char) : (String.mk l).length = l.length := rfl

/-- Writing at a position at or beyond the end of the buffer appends the
zero-fill gap and the written text. -/
lemma overwriteAt_of_le (buf : List Char) (p : Nat) (s : List Char)
    (h : buf.length ≤ p) :
    overwriteAt buf p s = buf ++ (List.replicate (p - buf.length) nulChar ++ s) := by
  unfold overwriteAt
  have h1 : (buf ++ List.replicate (p - buf.length) nulChar).length = p := by
    simp
    omega
  rw [List.take_of_length_le h1.le, List.drop_eq_nil_of_le (by omega)]
  simp

/-- Characterisation of one `writerow` step when the queue's contents fit
within the position (which holds in every reachable state): the produced chunk
is the old contents, then the zero-fill gap, then the new csv line; afterwards
the contents are empty, and the position has advanced by the line's length. -/
lemma writerow_eq (q : List Char) (p : Nat) (d : Char) (fns : List String)
    (em : List String) (row : Row) (h : q.length ≤ p) :
    UnicodeWriter.writerow ⟨⟨q, p⟩, d, fns, em⟩ row =
      (String.mk (q ++ (List.replicate (p - q.length) nulChar ++ (rowLine d fns row).data)),
       ⟨⟨[], p + (rowLine d fns row).length⟩, d, fns,
        em ++ [String.mk (q ++ (List.replicate (p - q.length) nulChar
          ++ (rowLine d fns row).data))]⟩) := by
  simp only [UnicodeWriter.writerow, StrQueue.write, StrQueue.getvalue,
    StrQueue.truncate0, Echo.write]
  rw [overwriteAt_of_le q p _ h]

/-- The state right after `__init__`: the queue's contents are the header line
and the position is that line's length. -/
lemma init_spec (fns : List String) (d : Char) :
    UnicodeWriter.init fns d =
      ⟨⟨(csvLine d fns).data, (csvLine d fns).length⟩, d, fns, []⟩ := by
  simp [UnicodeWriter.init, StrQueue.write, overwriteAt]

/-- The first `writerow` after construction: its chunk is the header line
immediately followed by the row's line. -/
lemma writerow_init (fns : List String) (d : Char) (row : Row) :
    (UnicodeWriter.init fns d).writerow row =
      (csvLine d fns ++ rowLine d fns row,
       ⟨⟨[], (csvLine d fns).length + (rowLine d fns row).length⟩, d, fns,
        [csvLine d fns ++ rowLine d fns row]⟩) := by
  rw [init_spec,
    writerow_eq (csvLine d fns).data (csvLine d fns).length d fns [] row (le_of_eq rfl)]
  have hz : (csvLine d fns).length - (csvLine d fns).data.length = 0 :=
    Nat.sub_self ((csvLine d fns).data.length)
  rw [hz]
  simp only [List.replicate_zero, List.nil_append]
  rfl

/-- `writerows` from a state with empty queue contents at position `p`
produces exactly `expectedChunks` and leaves the position advanced by the
total length of the written lines. -/
lemma writerows_empty_buf (d : Char) (fns : List String) (rs : List Row) :
    ∀ (p : Nat) (em : List String),
    UnicodeWriter.writerows ⟨⟨[], p⟩, d, fns, em⟩ rs =
      (expectedChunks d fns p rs,
       ⟨⟨[], p + (rs.map (fun r => (rowLine d fns r).length)).sum⟩, d, fns,
        em ++ expectedChunks d fns p rs⟩) := by
  induction rs with
  | nil =>
    intro p em
    simp [UnicodeWriter.writerows, expectedChunks]
  | cons r rs ih =>
    intro p em
    simp only [UnicodeWriter.writerows,
      writerow_eq [] p d fns em r (Nat.zero_le p)]
    rw [ih (p + (rowLine d fns r).length)]
    simp [expectedChunks, Nat.add_assoc]

/-- Index lookup inside `expectedChunks`: the `i`-th chunk is a NUL run whose
length is the starting position plus the lengths of the earlier lines,
followed by the `i`-th row's line. -/
lemma expectedChunks_get (d : Char) (fns : List String) (rs : List Row) :
    ∀ (p i : Nat) (r : Row), rs.get? i = some r →
    (expectedChunks d fns p rs).get? i =
      some (String.mk (List.replicate
        (p + ((rs.take i).map (fun x => (rowLine d fns x).length)).sum) nulChar
        ++ (rowLine d fns r).data)) := by
  induction rs with
  | nil =>
    intro p i r h
    simp at h
  | cons a rs ih =>
    intro p i r h
    cases i with
    | zero =>
      simp at h
      subst h
      simp [expectedChunks]
    | succ i =>
      simp only [List.get?_cons_succ] at h
      have := ih (p + (rowLine d fns a).length) i r h
      simp only [expectedChunks, List.get?_cons_succ, List.take_succ_cons,
        List.map_cons, List.sum_cons]
      rw [this]
      ring_nf

lemma strLength_data (s : String) : s.data.length = s.length := rfl

/-- `find?` over the `smart_text`-converted row mirrors `find?` over the
original row. -/
lemma find?_textify (row : Row) (k : String) :
    (textify row).find? (fun p => p.1 == k)
      = (row.find? (fun p => p.1 == k)).map (fun p => (p.1, smart_text p.2)) := by
  unfold textify
  rw [List.find?_map]
  rfl

/-- The keys of `res_headers` are exactly the `list_display` entries other
than `action_checkbox`, in order. -/
lemma resHeaders_keys (label : String → String) (ld : List String) :
    (resHeaders label ld).map Prod.fst
      = ld.filter (fun fn => fn ≠ "action_checkbox") := by
  induction ld with
  | nil => rfl
  | cons a rest ih =>
    by_cases h : a = "action_checkbox" <;>
      simp [resHeaders, List.filter_cons, h, ih]

/-- The labels of `res_headers` are the labels of the kept `list_display`
entries, in order. -/
lemma resHeaders_labels (label : String → String) (ld : List String) :
    (resHeaders label ld).map Prod.snd
      = (ld.filter (fun fn => fn ≠ "action_checkbox")).map label := by
  induction ld with
  | nil => rfl
  | cons a rest ih =>
    by_cases h : a = "action_checkbox" <;>
      simp [resHeaders, List.filter_cons, h, ih]

/-- The keys of a built row are the labels of the kept `list_display` entries,
in order. -/
lemma buildRow_keys (stripTags label : String → String) (resolve : String → Lookup)
    (ld : List String) :
    (buildRow stripTags label resolve ld).map Prod.fst
      = (ld.filter (fun fn => fn ≠ "action_checkbox")).map label := by
  induction ld with
  | nil => rfl
  | cons a rest ih =>
    by_cases h : a = "action_checkbox" <;>
      simp [buildRow, List.filter_cons, h, ih]

/-! Claim theorems. -/

/-- C1, behaviour of the code at the failing input (the specification's own
end-to-end example, `H = [Name, Amount]`, delimiter `,`): the document the
encoder emits is NOT the header line followed by the two row lines — a run of
18 NUL characters (the length of the header line plus the first row line)
precedes the second row line, because `truncate(0)` never rewinds the
`StringIO` position. -/
theorem C1_bug_eval :
    outputDocument ',' ["Name", "Amount"] [exRow1, exRow2]
      = "Name,Amount\r\nA,5\r\n" ++ nulRun 18 ++ "\"B,C\",10\r\n"
    ∧ outputDocument ',' ["Name", "Amount"] [exRow1, exRow2]
      ≠ specDocument ',' ["Name", "Amount"] [exRow1, exRow2]
    ∧ specDocument ',' ["Name", "Amount"] [exRow1, exRow2]
      = "Name,Amount\r\nA,5\r\n\"B,C\",10\r\n" := by
  refine ⟨by decide, by decide, by decide⟩

/-- C2 counterexample: construction emits nothing to the destination sink —
the emission trace right after `__init__` is empty, not the encoded header
chunk the claim asserts. -/
theorem C2_counterexample :
    (UnicodeWriter.init ["Name", "Amount"] ',').emitted = []
    ∧ (UnicodeWriter.init ["Name", "Amount"] ',').emitted
        ≠ [csvLine ',' ["Name", "Amount"]] := by
  exact ⟨rfl, by decide⟩

/-- C2 (amended): construction writes the header line into the internal
buffer but emits nothing to the sink; the header text reaches the sink only as
the leading part of the first `writerow` chunk. -/
theorem C2_amended (fns : List String) (d : Char) (row : Row) :
    (UnicodeWriter.init fns d).emitted = []
    ∧ (UnicodeWriter.init fns d).queue.getvalue = csvLine d fns
    ∧ ((UnicodeWriter.init fns d).writerow row).1 = csvLine d fns ++ rowLine d fns row
    ∧ ((UnicodeWriter.init fns d).writerow row).2.emitted
        = [csvLine d fns ++ rowLine d fns row] := by
  refine ⟨rfl, ?_, ?_, ?_⟩
  · rw [init_spec]; rfl
  · rw [writerow_init]
  · rw [writerow_init]

/-- C3 counterexample: before the first `writerow` the internal buffer is not
empty (it holds the header line), and the text extracted by the second
`writerow` is strictly longer than that row's single line — the extracted
text grows with everything written before, so the encoder does not stay
within one line's worth of buffered text. -/
theorem C3_counterexample :
    (UnicodeWriter.init ["A"] ',').queue.getvalue ≠ ""
    ∧ (rowLine ',' ["A"] rA2).length
        < (((UnicodeWriter.init ["A"] ',').writerows [rA1, rA2]).1.getD 1 ("")).length := by
  exact ⟨by decide, by decide⟩

/-- C3 (amended): after every `writerow` the buffer contents are truncated to
empty, but before the first `writerow` the buffer holds the header line, and
since truncation leaves the write position untouched, the text extracted by a
`writerow` at position `p` has length `p` plus the current line — it grows
with the total text written since construction instead of staying bounded by
one line. -/
theorem C3_amended (d : Char) (fns : List String) (em : List String) (p : Nat) (row : Row) :
    (UnicodeWriter.writerow ⟨⟨[], p⟩, d, fns, em⟩ row).2.queue.getvalue = ""
    ∧ ((UnicodeWriter.writerow ⟨⟨[], p⟩, d, fns, em⟩ row).1).length
        = p + (rowLine d fns row).length
    ∧ (UnicodeWriter.init fns d).queue.getvalue = csvLine d fns := by
  rw [writerow_eq [] p d fns em row (Nat.zero_le p)]
  refine ⟨rfl, ?_, ?_⟩
  · simp [length_strMk, strLength_data]
  · rw [init_spec]; rfl

/-- C4: after each `writerow` the queue position equals the total length of
all text written to it since construction (header plus all row lines so far),
and consequently the chunk of the `k`-th `writerow` (`k ≥ 2`) starts with a
NUL run whose length is the combined text length of the header line and the
first `k - 1` row lines. -/
theorem C4_spec (d : Char) (fns : List String) (rows : List Row) :
    (∀ j : Nat, (((UnicodeWriter.init fns d).writerows (rows.take j)).2).queue.pos
        = (csvLine d fns).length
          + ((rows.take j).map (fun r => (rowLine d fns r).length)).sum)
    ∧ (∀ (k : Nat) (r : Row), 2 ≤ k → rows.get? (k - 1) = some r →
        ((UnicodeWriter.init fns d).writerows rows).1.get? (k - 1)
          = some (String.mk (List.replicate ((csvLine d fns).length
              + ((rows.take (k - 1)).map (fun r => (rowLine d fns r).length)).sum) nulChar
              ++ (rowLine d fns r).data))) := by
  constructor
  · intro j
    cases rows with
    | nil =>
      rw [List.take_nil]
      simp [UnicodeWriter.writerows, init_spec]
    | cons r0 rs =>
      cases j with
      | zero =>
        simp [UnicodeWriter.writerows, init_spec]
      | succ j =>
        rw [List.take_succ_cons]
        simp only [UnicodeWriter.writerows, writerow_init]
        rw [writerows_empty_buf]
        simp [Nat.add_assoc]
  · intro k r h2 hk
    obtain ⟨i, rfl⟩ : ∃ i, k = i + 2 := ⟨k - 2, by omega⟩
    cases rows with
    | nil => simp at hk
    | cons r0 rs =>
      have hi : (i + 2) - 1 = i + 1 := rfl
      rw [hi] at hk ⊢
      simp only [List.get?_cons_succ] at hk
      simp only [UnicodeWriter.writerows, writerow_init]
      rw [writerows_empty_buf]
      simp only [List.get?_cons_succ]
      rw [expectedChunks_get d fns rs _ i r hk]
      simp [List.take_succ_cons, Nat.add_assoc]

/-- C4 witness: for the one-column writer and two rows, the chunk of the
second `writerow` starts with a NUL run of the length of the header line plus
the first row line. -/
theorem C4_witness :
    ((UnicodeWriter.init ["A"] ',').writerows [rA1, rA2]).1.get? (2 - 1)
      = some (String.mk (List.replicate ((csvLine ',' ["A"]).length
          + (([rA1, rA2].take (2 - 1)).map (fun r => (rowLine ',' ["A"] r).length)).sum) nulChar
          ++ (rowLine ',' ["A"] rA2).data)) :=
  (C4_spec ',' ["A"] [rA1, rA2]).2 2 rA2 (by decide) rfl

/-- C5, behaviour of the code at the failing input (one column whose lookup
raises the does-not-exist condition): the export does continue, but the field
is written as the text `None` — `smart_text(None)` — not as an empty field. -/
theorem C5_bug_eval :
    generate_response (fun s => s) ["name"] (fun _ => "Name") ','
        [fun _ => Lookup.doesNotExist]
      = ["Name\r\nNone\r\n"]
    ∧ ("Name\r\nNone\r\n" : String) ≠ "Name\r\n\r\n" := by
  exact ⟨by decide, by decide⟩

/-- C6 counterexample: a row binding its column to `None` produces the field
text `None`, not an empty field — the first chunk is `A\r\nNone\r\n`, not
`A\r\n\r\n`. -/
theorem C6_counterexample :
    ((UnicodeWriter.init ["A"] ',').writerow [("A", Value.vnone)]).1 = "A\r\nNone\r\n"
    ∧ ("A\r\nNone\r\n" : String) ≠ "A\r\n\r\n" := by
  exact ⟨by decide, by decide⟩

/-- C6 (amended): `writerow` never fails on a value convertible to text —
for the configured fieldname at each position, a bound text value passes
through unchanged, any other bound value contributes its standard text
conversion, a missing key becomes an empty field, and a bound `None` becomes
the text `None` (not an empty field). -/
theorem C6_amended (fns : List String) (row : Row) (j : Nat) (k : String)
    (hj : fns.get? j = some k) :
    (row.find? (fun p => p.1 == k) = none →
      (dictToFields fns (textify row)).get? j = some (""))
    ∧ (∀ s : String, row.find? (fun p => p.1 == k) = some (k, Value.vstr s) →
      (dictToFields fns (textify row)).get? j = some s)
    ∧ (∀ t : String, row.find? (fun p => p.1 == k) = some (k, Value.vother t) →
      (dictToFields fns (textify row)).get? j = some t)
    ∧ (row.find? (fun p => p.1 == k) = some (k, Value.vnone) →
      (dictToFields fns (textify row)).get? j = some ("None")) := by
  have hmap : (dictToFields fns (textify row)).get? j
      = some ((dictGet (textify row) k).getD ("")) := by
    unfold dictToFields
    rw [List.get?_map, hj]
    rfl
  refine ⟨?_, ?_, ?_, ?_⟩
  · intro h; rw [hmap]; simp [dictGet, find?_textify, h]
  · intro s h; rw [hmap]; simp [dictGet, find?_textify, h, smart_text]
  · intro t h; rw [hmap]; simp [dictGet, find?_textify, h, smart_text]
  · intro h; rw [hmap]; simp [dictGet, find?_textify, h, smart_text]

/-- C6 witness: a single column `A` bound to `None` yields the field text
`None`. -/
theorem C6_witness :
    (dictToFields ["A"] (textify [("A", Value.vnone)])).get? 0 = some ("None") :=
  (C6_amended ["A"] [("A", Value.vnone)] 0 "A" rfl).2.2.2 rfl

/-- C7: `writerow` returns exactly the chunk it forwarded to the sink — the
emission trace grows by precisely the returned chunk — and the `Echo` sink's
`write` returns its argument unchanged while storing nothing. -/
theorem C7_spec (w : UnicodeWriter) (row : Row) :
    (w.writerow row).2.emitted = w.emitted ++ [(w.writerow row).1]
    ∧ ∀ v : String, Echo.write v = v := by
  exact ⟨rfl, fun v => rfl⟩

/-- C8: every `list_display` field (other than `action_checkbox`) whose
resolved value is a string is handed to the encoder with `strip_tags` applied:
the built row binds the field's label to the stripped string. -/
theorem C8_spec (stripTags label : String → String) (resolve : String → Lookup)
    (ld : List String) (fn : String) (s : String)
    (h1 : fn ∈ ld) (h2 : fn ≠ "action_checkbox")
    (h3 : resolve fn = Lookup.ok (Value.vstr s)) :
    (label fn, Value.vstr (stripTags s)) ∈ buildRow stripTags label resolve ld := by
  induction ld with
  | nil => simp at h1
  | cons a rest ih =>
    rcases List.mem_cons.mp h1 with rfl | hmem
    · simp [buildRow, h2, resolveValue, h3, processValue]
    · by_cases ha : a = "action_checkbox"
      · simpa [buildRow, ha] using ih hmem
      · simp only [buildRow, ha, if_false]
        exact List.mem_cons_of_mem _ (ih hmem)

/-- C8 witness: with `list_display = [action_checkbox, name]` and the `name`
field resolving to the markup string, the built row holds the stripped
string. -/
theorem C8_witness :
    (("name", Value.vstr ("hi")) : String × Value)
      ∈ buildRow (fun _ => "hi") (fun x => x)
          (fun fn => if fn = "name" then Lookup.ok (Value.vstr ("<b>hi</b>"))
            else Lookup.doesNotExist)
          ["action_checkbox", "name"] :=
  C8_spec (fun _ => "hi") (fun x => x)
    (fun fn => if fn = "name" then Lookup.ok (Value.vstr ("<b>hi</b>"))
      else Lookup.doesNotExist)
    ["action_checkbox", "name"] "name" "<b>hi</b>"
    (by decide) (by decide) rfl

/-- C9: `writerows` produces exactly one element per input row, in input
order, the `k`-th element being the result of `writerow` on the `k`-th row in
the writer state reached after the first `k` rows. -/
theorem C9_spec (w : UnicodeWriter) (rows : List Row) :
    ((w.writerows rows).1.length = rows.length)
    ∧ ∀ (k : Nat) (r : Row), rows.get? k = some r →
        (w.writerows rows).1.get? k
          = some (((w.writerows (rows.take k)).2.writerow r).1) := by
  constructor
  · induction rows generalizing w with
    | nil => simp [UnicodeWriter.writerows]
    | cons r rs ih => simp [UnicodeWriter.writerows, ih]
  · intro k r h
    induction rows generalizing w k with
    | nil => simp at h
    | cons a rs ih =>
      cases k with
      | zero =>
        simp at h
        subst h
        simp [UnicodeWriter.writerows]
      | succ k =>
        simp only [List.get?_cons_succ] at h
        simp only [UnicodeWriter.writerows, List.take_succ_cons, List.get?_cons_succ]
        exact ih ((w.writerow a).2) k h

/-- C9 witness: the second element of `writerows` over two rows equals
`writerow` of the second row from the state after the first. -/
theorem C9_witness :
    ((UnicodeWriter.init ["A"] ',').writerows [rA1, rA2]).1.get? 1
      = some ((((UnicodeWriter.init ["A"] ',').writerows
          ([rA1, rA2].take 1)).2.writerow rA2).1) :=
  (C9_spec (UnicodeWriter.init ["A"] ',') [rA1, rA2]).2 1 rA2 rfl

/-- C10: the `action_checkbox` entry of `list_display` appears neither among
the export's header keys nor in any built row, while all other entries appear
in their original order both in `res_headers` (keys and labels) and in every
built row. -/
theorem C10_spec (stripTags label : String → String) (resolve : String → Lookup)
    (ld : List String) :
    "action_checkbox" ∉ (resHeaders label ld).map Prod.fst
    ∧ (resHeaders label ld).map Prod.fst = ld.filter (fun fn => fn ≠ "action_checkbox")
    ∧ (resHeaders label ld).map Prod.snd
        = (ld.filter (fun fn => fn ≠ "action_checkbox")).map label
    ∧ (buildRow stripTags label resolve ld).map Prod.fst
        = (ld.filter (fun fn => fn ≠ "action_checkbox")).map label := by
  refine ⟨?_, resHeaders_keys label ld, resHeaders_labels label ld,
    buildRow_keys stripTags label resolve ld⟩
  rw [resHeaders_keys]
  intro hmem
  rcases List.mem_filter.mp hmem with ⟨-, hp⟩
  simp at hp

end DjangoExportableAdmin
